import Mathlib

set_option allowUnsafeReducibility true in
attribute [semireducible] Rat.add Rat.mul Rat.inv Rat.sub Rat.neg Rat.div

/-!
Verification of the boundary-shape generators of `aecSpace/aecShaper.py`.

The Python module produces 2D boundary loops: primitive generators
(`makeBox`, `makePolygon`, `makeCylinder`) and composite builders
(`makeCross`, `makeH`, `makeL`, `makeT`, `makeU`) that delegate to the
private union engine `__add`.

Embedding conventions:
* Python floats are modelled as rationals (`ℚ`); the module performs only
  field arithmetic and comparisons on coordinates, plus calls into the
  `math` trigonometry functions, which are modelled as abstract function
  parameters (`piv`, `c`, `s`) so that every vertex formula is exact.
* A Python return value of `list | None | False` is modelled by `PyValue`.
* The shapely geometry backend used by `__add` is not part of the
  repository; it is modelled from the specification (see `parseBox`,
  `unaryUnion`, `specAdd` below).
-/

namespace aecShaper

/-- The plain point value object (`aecPoint`): an (x, y) coordinate pair.
The z coordinate is never consulted by the shaper and is omitted. -/
structure aecPoint where
  x : ℚ
  y : ℚ
  deriving DecidableEq, Repr

/-- A Python return value of the shaper functions: a vertex list on
success, `None` on the ordinary failure path, or `False` (returned by
`makePolygon` when the radius is zero). -/
inductive PyValue where
  | points (pts : List aecPoint)
  | noneVal
  | falseVal
  deriving DecidableEq, Repr

/-- Auxiliary sum for the shoelace formula: `shoelaceAux p0 l` adds the
cross terms of consecutive points of `l` and closes the loop back to `p0`. -/
def shoelaceAux (p0 : aecPoint) : List aecPoint → ℚ
  | [] => 0
  | [p] => p.x * p0.y - p0.x * p.y
  | p :: q :: rest => (p.x * q.y - q.x * p.y) + shoelaceAux p0 (q :: rest)

/-- The shoelace sum of a closed loop given without a duplicate closing
vertex; it equals twice the signed area (positive iff anticlockwise). -/
def shoelace : List aecPoint → ℚ
  | [] => 0
  | p :: rest => shoelaceAux p (p :: rest)

/-- Signed area of a loop by the shoelace formula. -/
def signedArea (pts : List aecPoint) : ℚ := shoelace pts / 2

/-- `aecShaper.makeBox`: the four corners of an axis-aligned rectangle,
listed from the origin.  The Python body cannot raise for numeric inputs,
so the `except` branch (returning `None`) is dead code and the embedding
returns the list directly. -/
def makeBox (origin : aecPoint) (xSize ySize : ℚ) : List aecPoint :=
  [⟨origin.x, origin.y⟩,
   ⟨origin.x + xSize, origin.y⟩,
   ⟨origin.x + xSize, origin.y + ySize⟩,
   ⟨origin.x, origin.y + ySize⟩]

/-- The vertex loop of `makePolygon` (`while count < sides`): starting at
`angle` and advancing by `inc` each step, emit
`(ox + radius·c angle, oy + radius·s angle)` for each of the remaining
iterations.  `c` and `s` are the cosine and sine functions of the `math`
module, taken as abstract parameters. -/
def polyVertexLoop (c s : ℚ → ℚ) (ox oy radius : ℚ) : ℚ → ℚ → Nat → List aecPoint
  | _, _, 0 => []
  | angle, inc, Nat.succ k =>
      ⟨ox + radius * c angle, oy + radius * s angle⟩ ::
        polyVertexLoop c s ox oy radius (angle + inc) inc k

/-- `aecShaper.makePolygon`: a regular polygon centred on `origin`.
`piv`, `c`, `s` model `math.pi`, `math.cos`, `math.sin`.  The Python code
takes `radius = abs(radius)`, returns the literal `False` when that is
zero, truncates `sides = int(abs(sides))` with a floor of 3, and then
emits the vertices starting at angle `pi * 0.5` with increment
`pi * 2 / sides`. -/
def makePolygon (piv : ℚ) (c s : ℚ → ℚ) (origin : aecPoint)
    (radius sides : ℚ) : PyValue :=
  if |radius| = 0 then .falseVal
  else
    .points (polyVertexLoop c s origin.x origin.y |radius|
      (piv * (1/2)) (piv * 2 / (max 3 (⌊|sides|⌋).toNat : ℕ)) (max 3 (⌊|sides|⌋).toNat))

/-- `aecShaper.makeCylinder`: chooses `sides = 3` when `radius < 3` and
`sides = radius` otherwise, then delegates to `makePolygon`. -/
def makeCylinder (piv : ℚ) (c s : ℚ → ℚ) (origin : aecPoint) (radius : ℚ) : PyValue :=
  makePolygon piv c s origin radius (if radius < 3 then 3 else radius)

/-- Number of vertices of a returned loop, when one was returned. -/
def sideCount : PyValue → Option Nat
  | .points pts => some pts.length
  | _ => none

theorem polyVertexLoop_length (c s : ℚ → ℚ) (ox oy radius : ℚ) :
    ∀ (n : Nat) (a inc : ℚ), (polyVertexLoop c s ox oy radius a inc n).length = n
  | 0, _, _ => rfl
  | Nat.succ k, a, inc => by
    simp [polyVertexLoop, polyVertexLoop_length c s ox oy radius k]

theorem polyVertexLoop_eq_map (c s : ℚ → ℚ) (ox oy radius inc : ℚ) :
    ∀ (n : Nat) (a : ℚ), polyVertexLoop c s ox oy radius a inc n
      = (List.range n).map fun i =>
          ⟨ox + radius * c (a + i * inc), oy + radius * s (a + i * inc)⟩
  | 0, _ => rfl
  | Nat.succ k, a => by
    have h0 : a + ((0 : Nat) : ℚ) * inc = a := by push_cast; ring
    rw [List.range_succ_eq_map, List.map_cons, polyVertexLoop,
      polyVertexLoop_eq_map c s ox oy radius inc k (a + inc), List.map_map]
    refine congrArg₂ _ (by rw [h0]) ?_
    refine List.map_congr_left fun i _ => ?_
    have hstep : a + inc + (i : ℚ) * inc = a + ((Nat.succ i : Nat) : ℚ) * inc := by
      push_cast; ring
    simp only [Function.comp_apply, hstep]

/-- C9: for every origin and positive sizes, `makeBox` returns exactly the
four corner points starting at the origin, anticlockwise, with signed area
`xSize * ySize`. -/
theorem makeBox_four_points_ccw_area (origin : aecPoint) (xSize ySize : ℚ)
    (hx : 0 < xSize) (hy : 0 < ySize) :
    makeBox origin xSize ySize =
      [⟨origin.x, origin.y⟩, ⟨origin.x + xSize, origin.y⟩,
       ⟨origin.x + xSize, origin.y + ySize⟩, ⟨origin.x, origin.y + ySize⟩] ∧
    signedArea (makeBox origin xSize ySize) = xSize * ySize ∧
    0 < signedArea (makeBox origin xSize ySize) := by
  have harea : signedArea (makeBox origin xSize ySize) = xSize * ySize := by
    simp only [makeBox, signedArea, shoelace, shoelaceAux]
    ring
  exact ⟨rfl, harea, harea ▸ mul_pos hx hy⟩

theorem makeBox_four_points_ccw_area_witness :
    makeBox ⟨0,0⟩ 1 1 = [⟨0,0⟩, ⟨0+1,0⟩, ⟨0+1,0+1⟩, ⟨0,0+1⟩] ∧
    signedArea (makeBox ⟨0,0⟩ 1 1) = 1 * 1 ∧
    0 < signedArea (makeBox ⟨0,0⟩ 1 1) :=
  makeBox_four_points_ccw_area ⟨0,0⟩ 1 1 (by norm_num) (by norm_num)

/-- C1: evidence against the end-to-end anticlockwise invariant.
`makeBox` succeeds on `xSize = -1, ySize = 1` and returns a loop whose
shoelace signed area is negative, i.e. a clockwise loop, contradicting the
docstring "a series of anticlockwise points". -/
theorem makeBox_negSize_returns_clockwise_loop :
    makeBox ⟨0,0⟩ (-1) 1 = [⟨0,0⟩, ⟨-1,0⟩, ⟨-1,1⟩, ⟨0,1⟩] ∧
    signedArea (makeBox ⟨0,0⟩ (-1) 1) = -1 ∧
    ¬ 0 < signedArea (makeBox ⟨0,0⟩ (-1) 1) := by
  decide

/-- C4: evidence of the divergence.  `makePolygon` with radius 0 returns
the Python literal `False` for every sides value, and `False` is a value
distinct from the `None` used by every other failure path (the docstring
says "Returns None failure"). -/
theorem makePolygon_zero_radius_returns_false (piv : ℚ) (c s : ℚ → ℚ)
    (origin : aecPoint) (sides : ℚ) :
    makePolygon piv c s origin 0 sides = .falseVal ∧
    PyValue.falseVal ≠ PyValue.noneVal := by
  refine ⟨by simp [makePolygon], by decide⟩

/-- C8: for nonzero radius, `makePolygon` uses radius `|r|` and side count
`n = max 3 ⌊|sides|⌋` and returns exactly the `n` points whose `i`-th
vertex sits at angle `pi/2 + i·(2·pi/n)` from the origin (so the first
vertex is at 90° and successive vertices advance anticlockwise by
`2·pi/n`, `pi`, cosine and sine being the real constants modelled here by
the abstract parameters `piv`, `c`, `s`). -/
theorem makePolygon_vertex_formula (piv : ℚ) (c s : ℚ → ℚ) (origin : aecPoint)
    (radius sides : ℚ) (h : radius ≠ 0) :
    makePolygon piv c s origin radius sides =
      .points ((List.range (max 3 (⌊|sides|⌋).toNat)).map fun i : ℕ =>
        ⟨origin.x + |radius| * c (piv / 2 + (i : ℚ) * (2 * piv / (max 3 (⌊|sides|⌋).toNat : ℕ))),
         origin.y + |radius| * s (piv / 2 + (i : ℚ) * (2 * piv / (max 3 (⌊|sides|⌋).toNat : ℕ)))⟩) := by
  have habs : ¬ |radius| = 0 := by simpa using h
  rw [makePolygon, if_neg habs, polyVertexLoop_eq_map]
  refine congrArg PyValue.points (List.map_congr_left fun i _ => ?_)
  have harg : piv * (1/2) + (i : ℚ) * (piv * 2 / ((max 3 (⌊|sides|⌋).toNat : ℕ) : ℚ))
      = piv / 2 + (i : ℚ) * (2 * piv / ((max 3 (⌊|sides|⌋).toNat : ℕ) : ℚ)) := by
    ring
  rw [harg]

theorem makePolygon_vertex_formula_witness :
    makePolygon 0 (fun _ => 0) (fun _ => 0) ⟨0,0⟩ 1 4 =
      .points ((List.range (max 3 (⌊|(4:ℚ)|⌋).toNat)).map fun _ =>
        ⟨0 + |(1:ℚ)| * (0:ℚ), 0 + |(1:ℚ)| * (0:ℚ)⟩) :=
  makePolygon_vertex_formula 0 (fun _ => 0) (fun _ => 0) ⟨0,0⟩ 1 4 (by norm_num)

/-- C10: for every negative radius, `makeCylinder` takes the `sides = 3`
branch (the comparison `radius < 3` happens on the signed radius), and
`makePolygon` then uses circumradius `|radius|`: the result is the
3-vertex regular polygon of circumradius `|radius|` centred on the origin,
never more than 3 sides. -/
theorem makeCylinder_negative_radius_triangle (piv : ℚ) (c s : ℚ → ℚ)
    (origin : aecPoint) (radius : ℚ) (h : radius < 0) :
    makeCylinder piv c s origin radius =
      .points ((List.range 3).map fun i : ℕ =>
        ⟨origin.x + |radius| * c (piv / 2 + (i : ℚ) * (2 * piv / 3)),
         origin.y + |radius| * s (piv / 2 + (i : ℚ) * (2 * piv / 3))⟩) := by
  have h3 : radius < 3 := lt_trans h (by norm_num)
  have habs : ¬ |radius| = 0 := by simp only [abs_eq_zero]; exact ne_of_lt h
  rw [makeCylinder, if_pos h3, makePolygon, if_neg habs, polyVertexLoop_eq_map]
  have hn : (max 3 (⌊|(3:ℚ)|⌋).toNat) = 3 := by decide
  rw [hn]
  refine congrArg PyValue.points (List.map_congr_left fun i _ => ?_)
  have harg : piv * (1/2) + (i : ℚ) * (piv * 2 / ((3 : ℕ) : ℚ))
      = piv / 2 + (i : ℚ) * (2 * piv / 3) := by
    push_cast; ring
  rw [harg]

theorem makeCylinder_negative_radius_triangle_witness :
    makeCylinder 0 (fun _ => 0) (fun _ => 0) ⟨0,0⟩ (-5) =
      .points ((List.range 3).map fun _ =>
        ⟨0 + |(-5:ℚ)| * (0:ℚ), 0 + |(-5:ℚ)| * (0:ℚ)⟩) :=
  makeCylinder_negative_radius_triangle 0 (fun _ => 0) (fun _ => 0) ⟨0,0⟩ (-5) (by norm_num)

/-- C7 counterexample: at radius `7/2` the returned polygon has 3 sides,
not `max 3 (7/2)` of them (the side count is truncated to an integer), and
at radius `0` no polygon is returned at all. -/
theorem makeCylinder_fractional_radius_counterexample :
    (sideCount (makeCylinder 0 (fun _ => 0) (fun _ => 0) ⟨0,0⟩ (7/2))).map
        (fun n => (n : ℚ)) ≠ some (max 3 (7/2 : ℚ)) ∧
    sideCount (makeCylinder 0 (fun _ => 0) (fun _ => 0) ⟨0,0⟩ 0) = none := by
  decide

/-- C7 amended: for every nonzero radius `r`, the polygon returned by
`makeCylinder` has exactly `max 3 ⌊r⌋` sides — `⌊r⌋` sides when `r ≥ 3`,
else 3 sides. -/
theorem makeCylinder_side_count (piv : ℚ) (c s : ℚ → ℚ) (origin : aecPoint)
    (radius : ℚ) (h : radius ≠ 0) :
    ∃ n : Nat, sideCount (makeCylinder piv c s origin radius) = some n ∧
      (n : ℤ) = max 3 ⌊radius⌋ := by
  have habs : ¬ |radius| = 0 := by simpa using h
  by_cases h3 : radius < 3
  · refine ⟨3, ?_, ?_⟩
    · rw [makeCylinder, if_pos h3, makePolygon, if_neg habs]
      simp [sideCount, polyVertexLoop_length]
    · have hfl : ⌊radius⌋ ≤ 3 := by
        have := Int.floor_le_floor (le_of_lt h3)
        simpa using this
      omega
  · push_neg at h3
    refine ⟨(⌊radius⌋).toNat, ?_, ?_⟩
    · rw [makeCylinder, if_neg (not_lt.mpr h3), makePolygon, if_neg habs]
      simp only [sideCount, polyVertexLoop_length]
      have hab : |radius| = radius := abs_of_nonneg (le_trans (by norm_num) h3)
      have hfl : (3 : ℤ) ≤ ⌊radius⌋ := Int.le_floor.mpr (by exact_mod_cast h3)
      rw [hab]
      congr 1
      omega
    · have hfl : (3 : ℤ) ≤ ⌊radius⌋ := Int.le_floor.mpr (by exact_mod_cast h3)
      omega

theorem makeCylinder_side_count_witness :
    ∃ n : Nat, sideCount (makeCylinder 0 (fun _ => 0) (fun _ => 0) ⟨0,0⟩ (7/2)) = some n ∧
      (n : ℤ) = max 3 ⌊(7/2 : ℚ)⌋ :=
  makeCylinder_side_count 0 (fun _ => 0) (fun _ => 0) ⟨0,0⟩ (7/2) (by norm_num)

/-- Python falsy defaulting `if not xWidth: xWidth = d`: an optional
width/depth argument is replaced by its default when it was omitted
(`None`) or supplied as `0`; any other value, negative ones included, is
kept unchanged. -/
def orDefault (p : Option ℚ) (d : ℚ) : ℚ :=
  match p with
  | none => d
  | some v => if v = 0 then d else v

/-- `aecShaper.makeCross`, parametric in the union engine `add`
(the private method `__add`): two full-span rectangular arms positioned
from the axis fractions, passed to the engine. -/
def makeCross (add : List (List aecPoint) → PyValue) (origin : aecPoint)
    (xSize ySize : ℚ) (xWidth yDepth : Option ℚ) (xAxis yAxis : ℚ) : PyValue :=
  add [makeBox ⟨origin.x + ((yAxis * xSize) - (orDefault xWidth (xSize * (1/2)) * (1/2))),
               origin.y⟩
         (orDefault xWidth (xSize * (1/2))) ySize,
       makeBox ⟨origin.x,
               origin.y + ((xAxis * ySize) - (orDefault yDepth (ySize * (1/2)) * (1/2)))⟩
         xSize (orDefault yDepth (ySize * (1/2)))]

/-- `aecShaper.makeH`, parametric in the union engine: two vertical bars
and a centred cross bar, built only after the three width checks pass. -/
def makeH (add : List (List aecPoint) → PyValue) (origin : aecPoint)
    (xSize ySize : ℚ) (xWidth1 xWidth2 yDepth : Option ℚ) : PyValue :=
  if orDefault xWidth1 (xSize * (3/10)) ≥ xSize * (1/2) then .noneVal
  else if orDefault xWidth2 (xSize * (3/10)) ≥ xSize * (1/2) then .noneVal
  else if orDefault yDepth (ySize * (3/10)) ≥ ySize then .noneVal
  else
    add [makeBox origin (orDefault xWidth1 (xSize * (3/10))) ySize,
         makeBox ⟨origin.x + (xSize - orDefault xWidth2 (xSize * (3/10))), origin.y⟩
           (orDefault xWidth2 (xSize * (3/10))) ySize,
         makeBox ⟨origin.x,
                  origin.y + ((ySize * (1/2)) - (orDefault yDepth (ySize * (3/10)) * (1/2)))⟩
           xSize (orDefault yDepth (ySize * (3/10)))]

/-- `aecShaper.makeL`, parametric in the union engine: a vertical and a
horizontal arm sharing the origin corner, after the two width checks. -/
def makeL (add : List (List aecPoint) → PyValue) (origin : aecPoint)
    (xSize ySize : ℚ) (xWidth yDepth : Option ℚ) : PyValue :=
  if orDefault xWidth (xSize * (1/2)) ≥ xSize then .noneVal
  else if orDefault yDepth (ySize * (1/2)) ≥ ySize then .noneVal
  else
    add [makeBox origin (orDefault xWidth (xSize * (1/2))) ySize,
         makeBox origin xSize (orDefault yDepth (ySize * (1/2)))]

/-- `aecShaper.makeT`, parametric in the union engine: a top bar and a
centred vertical stem, after the two width checks. -/
def makeT (add : List (List aecPoint) → PyValue) (origin : aecPoint)
    (xSize ySize : ℚ) (xWidth yDepth : Option ℚ) : PyValue :=
  if orDefault xWidth (xSize * (1/2)) ≥ xSize then .noneVal
  else if orDefault yDepth (ySize * (1/2)) ≥ ySize then .noneVal
  else
    add [makeBox ⟨origin.x, origin.y + (ySize - orDefault yDepth (ySize * (1/2)))⟩
           xSize (orDefault yDepth (ySize * (1/2))),
         makeBox ⟨origin.x + ((xSize * (1/2)) - (orDefault xWidth (xSize * (1/2)) * (1/2))),
                  origin.y⟩
           (orDefault xWidth (xSize * (1/2))) ySize]

/-- `aecShaper.makeU`, parametric in the union engine: an L-shape (built
through `makeL` with the already defaulted widths) unioned with a right
vertical bar, after the three width checks.  When the inner `makeL` call
does not return a vertex list, iterating over its result inside `__add`
raises and the handler returns `None`; the fallthrough arm models that. -/
def makeU (add : List (List aecPoint) → PyValue) (origin : aecPoint)
    (xSize ySize : ℚ) (xWidth1 xWidth2 yDepth : Option ℚ) : PyValue :=
  if orDefault xWidth1 (xSize * (3/10)) ≥ xSize * (1/2) then .noneVal
  else if orDefault xWidth2 (xSize * (3/10)) ≥ xSize * (1/2) then .noneVal
  else if orDefault yDepth (ySize * (3/10)) ≥ ySize then .noneVal
  else
    match makeL add origin xSize ySize (some (orDefault xWidth1 (xSize * (3/10))))
        (some (orDefault yDepth (ySize * (3/10)))) with
    | .points pointsL =>
        add [pointsL,
             makeBox ⟨origin.x + (xSize - orDefault xWidth2 (xSize * (3/10))), origin.y⟩
               (orDefault xWidth2 (xSize * (3/10))) ySize]
    | _ => .noneVal

/-- A concrete stand-in union engine that simply concatenates its input
loops; it is injective enough to expose which rectangles a builder
constructs. -/
def concatUnion : List (List aecPoint) → PyValue :=
  fun pointSet => .points pointSet.flatten

theorem ite_chain2_none {c1 c2 : Prop} [Decidable c1] [Decidable c2] {e : PyValue}
    (h : c1 ∨ c2) :
    (if c1 then PyValue.noneVal else if c2 then PyValue.noneVal else e) = PyValue.noneVal := by
  rcases h with h | h
  · rw [if_pos h]
  · by_cases h1 : c1
    · rw [if_pos h1]
    · rw [if_neg h1, if_pos h]

theorem ite_chain3_none {c1 c2 c3 : Prop} [Decidable c1] [Decidable c2] [Decidable c3]
    {e : PyValue} (h : c1 ∨ c2 ∨ c3) :
    (if c1 then PyValue.noneVal else if c2 then PyValue.noneVal
      else if c3 then PyValue.noneVal else e) = PyValue.noneVal := by
  rcases h with h | h
  · rw [if_pos h]
  · by_cases h1 : c1
    · rw [if_pos h1]
    · rw [if_neg h1, ite_chain2_none h]

/-- C5: whenever a supplied width/depth argument reaches or exceeds its
disallowed bound (`makeL`/`makeT`: `xWidth ≥ xSize` or `yDepth ≥ ySize`;
`makeH`/`makeU`: `xWidth1 ≥ xSize/2`, `xWidth2 ≥ xSize/2` or
`yDepth ≥ ySize`), the builder returns the `None` failure signal, and it
does so for **every** union engine `add`, i.e. the union engine is never
invoked. -/
theorem builders_reject_oversize_params
    (add : List (List aecPoint) → PyValue) (origin : aecPoint)
    (xSize ySize v : ℚ) (w d w1 w2 : Option ℚ) :
    ((w = some v ∧ xSize ≤ v) ∨ (d = some v ∧ ySize ≤ v) →
      makeL add origin xSize ySize w d = .noneVal ∧
      makeT add origin xSize ySize w d = .noneVal) ∧
    ((w1 = some v ∧ xSize * (1/2) ≤ v) ∨ (w2 = some v ∧ xSize * (1/2) ≤ v) ∨
        (d = some v ∧ ySize ≤ v) →
      makeH add origin xSize ySize w1 w2 d = .noneVal ∧
      makeU add origin xSize ySize w1 w2 d = .noneVal) := by
  have hw : ∀ (p : Option ℚ) (bound dflt : ℚ), p = some v → bound ≤ v →
      (v = 0 → bound ≤ dflt) → bound ≤ orDefault p dflt := by
    rintro p bound dflt rfl hv h0
    simp only [orDefault]
    split_ifs with h
    · exact h0 h
    · exact hv
  constructor
  · intro h
    have hg : (orDefault w (xSize * (1/2)) ≥ xSize) ∨
        (orDefault d (ySize * (1/2)) ≥ ySize) := by
      rcases h with ⟨hp, hv⟩ | ⟨hp, hv⟩
      · exact Or.inl (hw w xSize (xSize * (1/2)) hp hv
          (fun h0 => by rw [h0] at hv; linarith))
      · exact Or.inr (hw d ySize (ySize * (1/2)) hp hv
          (fun h0 => by rw [h0] at hv; linarith))
    exact ⟨by unfold makeL; exact ite_chain2_none hg,
           by unfold makeT; exact ite_chain2_none hg⟩
  · intro h
    have hg : (orDefault w1 (xSize * (3/10)) ≥ xSize * (1/2)) ∨
        (orDefault w2 (xSize * (3/10)) ≥ xSize * (1/2)) ∨
        (orDefault d (ySize * (3/10)) ≥ ySize) := by
      rcases h with ⟨hp, hv⟩ | ⟨hp, hv⟩ | ⟨hp, hv⟩
      · exact Or.inl (hw w1 (xSize * (1/2)) (xSize * (3/10)) hp hv
          (fun h0 => by rw [h0] at hv; linarith))
      · exact Or.inr (Or.inl (hw w2 (xSize * (1/2)) (xSize * (3/10)) hp hv
          (fun h0 => by rw [h0] at hv; linarith)))
      · exact Or.inr (Or.inr (hw d ySize (ySize * (3/10)) hp hv
          (fun h0 => by rw [h0] at hv; linarith)))
    exact ⟨by unfold makeH; exact ite_chain3_none hg,
           by unfold makeU; exact ite_chain3_none hg⟩

theorem builders_reject_oversize_params_witness :
    makeL concatUnion ⟨0,0⟩ 10 10 (some 10) none = .noneVal ∧
    makeT concatUnion ⟨0,0⟩ 10 10 (some 10) none = .noneVal ∧
    makeH concatUnion ⟨0,0⟩ 10 10 (some 10) none none = .noneVal ∧
    makeU concatUnion ⟨0,0⟩ 10 10 (some 10) none none = .noneVal := by
  have h := builders_reject_oversize_params concatUnion ⟨0,0⟩ 10 10 10
    (some 10) none (some 10) none
  have h1 := h.1 (Or.inl ⟨rfl, by norm_num⟩)
  have h2 := h.2 (Or.inl ⟨rfl, by norm_num⟩)
  exact ⟨h1.1, h1.2, h2.1, h2.2⟩

/-- C6 counterexample: an explicitly negative width is **not** replaced by
the default — Python's falsy test only catches `None` and `0` — so
`makeCross` with `xWidth = -1` builds different rectangles than with the
default width `xSize·0.5`. -/
theorem makeCross_negative_width_kept :
    makeCross concatUnion ⟨0,0⟩ 10 10 (some (-1)) none (1/2) (1/2) ≠
      makeCross concatUnion ⟨0,0⟩ 10 10 (some (10 * (1/2))) none (1/2) (1/2) := by
  decide

/-- A width/depth argument that Python's falsy test treats as unset:
omitted (`None`) or exactly `0`. -/
def unsetParam (p : Option ℚ) : Prop := p = none ∨ p = some 0

theorem orDefault_unset {p : Option ℚ} (h : unsetParam p) (d : ℚ) : orDefault p d = d := by
  rcases h with rfl | rfl
  · rfl
  · simp [orDefault]

theorem orDefault_self (d : ℚ) : orDefault (some d) d = d := by
  simp only [orDefault]
  split_ifs <;> rfl

/-- C6 amended: for every composite builder, a width/depth argument that
is missing or explicitly supplied as `0` is replaced by its documented
default fraction of the corresponding extent before any validation or
construction — the call behaves, for every union engine, exactly like the
call with the default passed explicitly.  (A negative supplied value is
kept as-is; see the counterexample.) -/
theorem builders_default_missing_or_zero_params
    (add : List (List aecPoint) → PyValue) (origin : aecPoint)
    (xSize ySize xAxis yAxis : ℚ) (w d w1 w2 : Option ℚ)
    (hw : unsetParam w) (hd : unsetParam d)
    (hw1 : unsetParam w1) (hw2 : unsetParam w2) :
    makeCross add origin xSize ySize w d xAxis yAxis =
      makeCross add origin xSize ySize (some (xSize * (1/2))) (some (ySize * (1/2)))
        xAxis yAxis ∧
    makeH add origin xSize ySize w1 w2 d =
      makeH add origin xSize ySize (some (xSize * (3/10))) (some (xSize * (3/10)))
        (some (ySize * (3/10))) ∧
    makeL add origin xSize ySize w d =
      makeL add origin xSize ySize (some (xSize * (1/2))) (some (ySize * (1/2))) ∧
    makeT add origin xSize ySize w d =
      makeT add origin xSize ySize (some (xSize * (1/2))) (some (ySize * (1/2))) ∧
    makeU add origin xSize ySize w1 w2 d =
      makeU add origin xSize ySize (some (xSize * (3/10))) (some (xSize * (3/10)))
        (some (ySize * (3/10))) := by
  simp only [makeCross, makeH, makeL, makeT, makeU,
    orDefault_unset hw, orDefault_unset hd, orDefault_unset hw1, orDefault_unset hw2,
    orDefault_self]
  exact ⟨trivial, trivial, trivial, trivial, trivial⟩

theorem builders_default_missing_or_zero_params_witness :
    makeCross concatUnion ⟨0,0⟩ 10 10 none (some 0) (1/2) (1/2) =
      makeCross concatUnion ⟨0,0⟩ 10 10 (some (10 * (1/2))) (some (10 * (1/2)))
        (1/2) (1/2) :=
  (builders_default_missing_or_zero_params concatUnion ⟨0,0⟩ 10 10 (1/2) (1/2)
    none (some 0) (some 0) none (Or.inl rfl) (Or.inr rfl) (Or.inr rfl) (Or.inl rfl)).1

/-- Modelled from the spec: an axis-aligned rectangle in normalized form
(`x0 ≤ x1`, `y0 ≤ y1`).  The shapely polygon construction and winding
normalization (`shapely.polygon.orient`) that `__add` applies to each
candidate loop is modelled by `parseBox` below, which accepts the
rectangle loops produced by `makeBox` in either winding and normalizes
them; degenerate (zero-extent) loops and loops that are not such
rectangles are rejected, sending `__add` to its failure path. -/
structure BBox where
  x0 : ℚ
  y0 : ℚ
  x1 : ℚ
  y1 : ℚ
  deriving DecidableEq, Repr

/-- Modelled from the spec: candidate-loop validation and winding
normalization of the Union Engine, for the rectangle loops this module
feeds it. -/
def parseBox : List aecPoint → Option BBox
  | [a, b, c, d] =>
    if a.y = b.y ∧ b.x = c.x ∧ c.y = d.y ∧ d.x = a.x ∧ ¬ a.x = b.x ∧ ¬ a.y = c.y then
      some ⟨min a.x b.x, min a.y c.y, max a.x b.x, max a.y c.y⟩
    else none
  | _ => none

/-- Validation of all candidate loops in order; `none` models the raised
exception (and therefore the `None` return) of `__add`. -/
def parseBoxes : List (List aecPoint) → Option (List BBox)
  | [] => some []
  | l :: rest =>
    match parseBox l, parseBoxes rest with
    | some b, some bs => some (b :: bs)
    | _, _ => none

/-- Insertion into a strictly sorted list of coordinates, keeping it
sorted and duplicate-free. -/
def insertSorted (v : ℚ) : List ℚ → List ℚ
  | [] => [v]
  | h :: t =>
    if v < h then v :: h :: t
    else if v = h then h :: t
    else h :: insertSorted v t

/-- All distinct x coordinates of the boxes, sorted. -/
def xCoords (bs : List BBox) : List ℚ :=
  bs.foldl (fun acc b => insertSorted b.x1 (insertSorted b.x0 acc)) []

/-- All distinct y coordinates of the boxes, sorted. -/
def yCoords (bs : List BBox) : List ℚ :=
  bs.foldl (fun acc b => insertSorted b.y1 (insertSorted b.y0 acc)) []

/-- Whether grid cell `(i, j)` of the compressed coordinate grid lies
inside some box.  Every box edge lies on a grid line, so a cell is inside
a box exactly when its corners are. -/
def cellFilled (bs : List BBox) (xs ys : List ℚ) (i j : Nat) : Bool :=
  decide (i + 1 < xs.length) && decide (j + 1 < ys.length) &&
  bs.any fun b =>
    decide (b.x0 ≤ xs.getD i 0) && decide (xs.getD (i+1) 0 ≤ b.x1) &&
    decide (b.y0 ≤ ys.getD j 0) && decide (ys.getD (j+1) 0 ≤ b.y1)

/-- The directed boundary edges contributed by cell `(i, j)`: each side of
a filled cell facing an unfilled neighbour, oriented with the filled
region on its left (anticlockwise around the region). -/
def cellEdges (bs : List BBox) (xs ys : List ℚ) (i j : Nat) : List (aecPoint × aecPoint) :=
  if cellFilled bs xs ys i j then
    (if j == 0 || !cellFilled bs xs ys i (j-1) then
      [(⟨xs.getD i 0, ys.getD j 0⟩, ⟨xs.getD (i+1) 0, ys.getD j 0⟩)] else []) ++
    (if !cellFilled bs xs ys (i+1) j then
      [(⟨xs.getD (i+1) 0, ys.getD j 0⟩, ⟨xs.getD (i+1) 0, ys.getD (j+1) 0⟩)] else []) ++
    (if !cellFilled bs xs ys i (j+1) then
      [(⟨xs.getD (i+1) 0, ys.getD (j+1) 0⟩, ⟨xs.getD i 0, ys.getD (j+1) 0⟩)] else []) ++
    (if i == 0 || !cellFilled bs xs ys (i-1) j then
      [(⟨xs.getD i 0, ys.getD (j+1) 0⟩, ⟨xs.getD i 0, ys.getD j 0⟩)] else [])
  else []

/-- All directed boundary edges of the union region. -/
def boundaryEdges (bs : List BBox) : List (aecPoint × aecPoint) :=
  ((List.range (xCoords bs).length).map fun i =>
    ((List.range (yCoords bs).length).map fun j =>
      cellEdges bs (xCoords bs) (yCoords bs) i j).flatten).flatten

/-- Lexicographic comparison of points, x before y. -/
def lexLt (p q : aecPoint) : Bool :=
  decide (p.x < q.x) || (decide (p.x = q.x) && decide (p.y < q.y))

/-- The lexicographically smallest source vertex of the edge list; it is a
convex corner of the region, hence on the exterior ring. -/
def minSource : List (aecPoint × aecPoint) → Option aecPoint
  | [] => none
  | e :: rest =>
    match minSource rest with
    | none => some e.1
    | some m => if lexLt e.1 m then some e.1 else some m

/-- Remove and return the first edge leaving vertex `v`. -/
def findEdgeFrom (v : aecPoint) : List (aecPoint × aecPoint) →
    Option ((aecPoint × aecPoint) × List (aecPoint × aecPoint))
  | [] => none
  | e :: rest =>
    if e.1 = v then some (e, rest)
    else
      match findEdgeFrom v rest with
      | some (f, remaining) => some (f, e :: remaining)
      | none => none

/-- Follow directed boundary edges from `cur` until the walk closes at
`start`; returns the closed ring (with the duplicate closing vertex) and
the unvisited edges. -/
def walkLoop (start : aecPoint) : Nat → aecPoint → List (aecPoint × aecPoint) →
    List aecPoint → Option (List aecPoint × List (aecPoint × aecPoint))
  | 0, _, _, _ => none
  | Nat.succ fuel, cur, edges, acc =>
    match findEdgeFrom cur edges with
    | none => none
    | some (e, rest) =>
      if e.2 = start then some ((start :: acc).reverse, rest)
      else walkLoop start fuel e.2 rest (e.2 :: acc)

/-- Twice the signed area of triangle `p q r`; zero iff collinear. -/
def crossProd (p q r : aecPoint) : ℚ :=
  (q.x - p.x) * (r.y - q.y) - (q.y - p.y) * (r.x - q.x)

/-- Drop interior vertices that are collinear with their neighbours. -/
def compressFrom (a : aecPoint) : List aecPoint → List aecPoint
  | b :: c :: rest =>
    if crossProd a b c = 0 then compressFrom a (c :: rest)
    else b :: compressFrom b (c :: rest)
  | l => l

/-- Collinearity compression of a closed ring (first vertex repeated at
the end); the first vertex is a convex corner and is kept. -/
def compressRing : List aecPoint → List aecPoint
  | [] => []
  | a :: rest => a :: compressFrom a rest

/-- Modelled from the spec: the possible shapes of a shapely
`unary_union` result as far as `__add` inspects them — a single polygon
(carrying its exterior ring with the duplicate closing vertex), a
multi-part or otherwise non-polygonal geometry, or an empty geometry. -/
inductive ShapelyGeom where
  | polygonRing (ring : List aecPoint)
  | multiPart
  | emptyGeom
  deriving DecidableEq, Repr

/-- Modelled from the spec: `shapely.ops.unary_union` restricted to
axis-aligned rectangles.  Computes the planar boolean OR of the boxes on
the compressed coordinate grid; when the whole boundary of the filled
region is one closed ring the result is that single polygon's exterior
ring (anticlockwise, starting from the lexicographically smallest corner,
closing vertex repeated); any leftover boundary means several disjoint
pieces (holes do not arise for this module's shape vocabulary) and yields
a non-polygon result, as does an empty input. -/
def unaryUnion (bs : List BBox) : ShapelyGeom :=
  match minSource (boundaryEdges bs) with
  | none => .emptyGeom
  | some start =>
    match walkLoop start ((boundaryEdges bs).length + 1) start (boundaryEdges bs)
        [start] with
    | none => .multiPart
    | some (ring, leftover) =>
      if leftover.isEmpty then .polygonRing (compressRing ring) else .multiPart

/-- `aecShaper.__add`: validate and orient every candidate loop, union
them, accept only a single-polygon result, and return its exterior ring
without the duplicate closing vertex (`[:-1]`); every failure returns
`None`. -/
def specAdd (pointSet : List (List aecPoint)) : PyValue :=
  match parseBoxes pointSet with
  | none => .noneVal
  | some bs =>
    match unaryUnion bs with
    | .polygonRing ring => .points ring.dropLast
    | _ => .noneVal

/-- Whether the union stage of `__add` produced a single polygon. -/
def unionIsSinglePolygon (pointSet : List (List aecPoint)) : Bool :=
  match parseBoxes pointSet with
  | none => false
  | some bs =>
    match unaryUnion bs with
    | .polygonRing _ => true
    | _ => false

/-- Vector difference of two points. -/
def ptSub (p q : aecPoint) : aecPoint := ⟨p.x - q.x, p.y - q.y⟩

/-- 2D cross product of two vectors. -/
def cross2 (u v : aecPoint) : ℚ := u.x * v.y - u.y * v.x

/-- Dot product of two vectors. -/
def dot2 (u v : aecPoint) : ℚ := u.x * v.x + u.y * v.y

/-- Whether `r` lies on the closed segment from `p` to `q`. -/
def onSegment (p q r : aecPoint) : Bool :=
  decide (cross2 (ptSub q p) (ptSub r p) = 0) &&
  decide (min p.x q.x ≤ r.x) && decide (r.x ≤ max p.x q.x) &&
  decide (min p.y q.y ≤ r.y) && decide (r.y ≤ max p.y q.y)

/-- Whether the closed segments `p1 q1` and `p2 q2` share any point. -/
def segIntersects (p1 q1 p2 q2 : aecPoint) : Bool :=
  (decide (cross2 (ptSub q2 p2) (ptSub p1 p2) * cross2 (ptSub q2 p2) (ptSub q1 p2) < 0) &&
   decide (cross2 (ptSub q1 p1) (ptSub p2 p1) * cross2 (ptSub q1 p1) (ptSub q2 p1) < 0)) ||
  onSegment p2 q2 p1 || onSegment p2 q2 q1 || onSegment p1 q1 p2 || onSegment p1 q1 q2

/-- The direction vector of edge `i` of a closed loop given without the
duplicate closing vertex. -/
def edgeDir (ring : List aecPoint) (i : Nat) : aecPoint :=
  ptSub (ring.getD ((i+1) % ring.length) ⟨0,0⟩) (ring.getD i ⟨0,0⟩)

/-- Simplicity of a closed loop given without the duplicate closing
vertex: at least three vertices, all vertices distinct, no adjacent pair
of edges folding back onto itself, and no two non-adjacent edges sharing
any point. -/
def isSimpleLoop (ring : List aecPoint) : Bool :=
  decide (3 ≤ ring.length) &&
  ((List.range ring.length).all fun i => (List.range ring.length).all fun j =>
    decide (i = j) || !(decide (ring.getD i ⟨0,0⟩ = ring.getD j ⟨0,0⟩))) &&
  ((List.range ring.length).all fun i =>
    !(decide (cross2 (edgeDir ring i) (edgeDir ring ((i+1) % ring.length)) = 0) &&
      decide (dot2 (edgeDir ring i) (edgeDir ring ((i+1) % ring.length)) < 0))) &&
  ((List.range ring.length).all fun i => (List.range ring.length).all fun j =>
    if i < j ∧ j ≠ i + 1 ∧ ¬ (i = 0 ∧ j = ring.length - 1) then
      !segIntersects (ring.getD i ⟨0,0⟩) (ring.getD ((i+1) % ring.length) ⟨0,0⟩)
        (ring.getD j ⟨0,0⟩) (ring.getD ((j+1) % ring.length) ⟨0,0⟩)
    else true)

/-- C2: the Union Engine returns the `None` failure signal (never a
multi-part result) whenever the union of the candidate loops is not a
single connected polygon — this mirrors the type gate
`if type(boundary) != shapely.polygon.Polygon: return None` of `__add`,
with the shapely backend modelled from the spec. -/
theorem specAdd_fails_unless_single_polygon (pointSet : List (List aecPoint))
    (h : unionIsSinglePolygon pointSet = false) : specAdd pointSet = .noneVal := by
  unfold specAdd
  unfold unionIsSinglePolygon at h
  cases hp : parseBoxes pointSet with
  | none => rfl
  | some bs =>
    rw [hp] at h
    dsimp only at h ⊢
    cases hu : unaryUnion bs with
    | polygonRing ring => rw [hu] at h; exact absurd h (by simp)
    | multiPart => rfl
    | emptyGeom => rfl

theorem specAdd_fails_unless_single_polygon_witness :
    unionIsSinglePolygon [makeBox ⟨0,0⟩ 1 1, makeBox ⟨3,0⟩ 1 1] = false ∧
    specAdd [makeBox ⟨0,0⟩ 1 1, makeBox ⟨3,0⟩ 1 1] = .noneVal :=
  ⟨by decide, specAdd_fails_unless_single_polygon _ (by decide)⟩

/-- C3: `makeCross ⟨0,0⟩ 10 10` with the default widths
(`xWidth = yDepth = 5`, `xAxis = yAxis = 1/2`) succeeds and returns a
single simple 12-vertex polygon whose enclosed area is
`xWidth·ySize + xSize·yDepth − 5·5 = 75`, the analytic union area of the
two overlapping arm rectangles. -/
theorem makeCross_default_ten_plus_sign :
    ∃ ring, makeCross specAdd ⟨0,0⟩ 10 10 none none (1/2) (1/2) = .points ring ∧
      ring.length = 12 ∧
      signedArea ring = 5 * 10 + 10 * 5 - 5 * 5 ∧
      isSimpleLoop ring = true := by
  refine ⟨[⟨0, 5/2⟩, ⟨5/2, 5/2⟩, ⟨5/2, 0⟩, ⟨15/2, 0⟩, ⟨15/2, 5/2⟩, ⟨10, 5/2⟩,
           ⟨10, 15/2⟩, ⟨15/2, 15/2⟩, ⟨15/2, 10⟩, ⟨5/2, 10⟩, ⟨5/2, 15/2⟩, ⟨0, 15/2⟩],
    ?_, ?_, ?_, ?_⟩
  · decide
  · decide
  · decide
  · decide

end aecShaper
